import Mathlib

/-!
Shallow embedding of the interactive process dialogue orchestrator of
`src/unnamed/part_000` (the TypeScript module whose core is the function
`executeInteractiveScriptInContainer`, together with the `LocalNixOSAI`
logging class shared with `src/index.ts`).

Pure values are embedded as Lean values; the effectful orchestrator body is
embedded as a pure interpreter over an explicit environment that fixes the
outcome of every external effect (filesystem calls, child process events),
producing the returned result together with an ordered event trace, the
`LocalNixOSAI` action log, the internal `executionLog`, and a small
filesystem model tracking the ephemeral staging directory.

JavaScript strings are Lean `String`s; `path.basename`, `trim`, and the
template-literal interpolations are re-implemented over character lists so
that every definition evaluates by kernel reduction.
-/

/-- JS `Array.prototype.join(' ')`, used for the spawn-argument log line. -/
def joinSp : List String → String
  | [] => ""
  | [a] => a
  | a :: rest => a ++ " " ++ joinSp rest

/-- Characters treated as whitespace by the model of `String.prototype.trim`. -/
def jsSpace (c : Char) : Bool :=
  c = ' ' || c = '\n' || c = '\t' || c = '\r'

/-- Model of JS `String.prototype.trim` (used on stream chunks before logging). -/
def jsTrim (s : String) : String :=
  ⟨((s.toList.dropWhile jsSpace).reverse.dropWhile jsSpace).reverse⟩

/-- Helper for `baseName`: keeps the characters accumulated since the last slash. -/
def baseNameAux : List Char → List Char → List Char
  | [], acc => acc
  | c :: rest, acc => if c = '/' then baseNameAux rest [] else baseNameAux rest (acc ++ [c])

/-- Model of Node `path.basename` as used on the host script path. -/
def baseName (p : String) : String :=
  ⟨baseNameAux p.toList []⟩

/-- Scan helper: returns the character position just after the first occurrence
of `needle` in the remaining haystack, `k` being the offset already consumed. -/
def matchEndAux (needle : List Char) : List Char → Nat → Option Nat
  | [], k => if needle.isEmpty then some k else none
  | c :: rest, k =>
    if needle.isPrefixOf (c :: rest) then some (k + needle.length)
    else matchEndAux needle rest (k + 1)

/-- A concrete prompt pattern: matches when `needle` occurs in the buffer and
reports the character position just after the match (the match point). -/
def substrPat (needle : String) (hay : String) : Option Nat :=
  matchEndAux needle.toList hay.toList 0

/-- Decidable substring occurrence, used to state log-redaction properties. -/
def containsStr (needle hay : String) : Bool :=
  (matchEndAux needle.toList hay.toList 0).isSome

/-- Drop of the first `n` characters of a string (the buffer residue operation). -/
def strDrop (s : String) (n : Nat) : String :=
  ⟨s.toList.drop n⟩

/-- The `LogLevel` enum of the source. -/
inductive LogLevel
  | INFO
  | WARN
  | ERROR
  | DEBUG
deriving DecidableEq

/-- The `LogEntry` interface of the source; the `Date` timestamp is modelled as
a tick counter (the length of the action log at append time). -/
structure LogEntry where
  level : LogLevel
  message : String
  timestamp : Nat
deriving DecidableEq

/-- A JavaScript value passed as the optional `data` argument of
`LocalNixOSAI.log`; enough constructors to express JS truthiness. -/
inductive JsData
  | jsNull
  | jsNum (n : Int)
  | jsStr (s : String)
  | jsBool (b : Bool)
deriving DecidableEq

/-- JS truthiness of a `JsData` value (`data ? ... : ...` in the source). -/
def truthy : JsData → Bool
  | JsData.jsNull => false
  | JsData.jsNum n => n ≠ 0
  | JsData.jsStr s => s ≠ ""
  | JsData.jsBool b => b

/-- Model of `JSON.stringify` on the embedded JS values. -/
def stringifyData : JsData → String
  | JsData.jsNull => "null"
  | JsData.jsNum n => toString n
  | JsData.jsStr s => "\"" ++ s ++ "\""
  | JsData.jsBool b => if b then "true" else "false"

/-- The message stored by `LocalNixOSAI.log`: the source computes
`data ? message + " Data: " + JSON.stringify(data, null, 2) : message`. -/
def mkLogMessage (message : String) (data : Option JsData) : String :=
  match data with
  | none => message
  | some d => if truthy d then message ++ " Data: " ++ stringifyData d else message

/-- State of the `LocalNixOSAI` class: its private `actionLog` array. -/
structure LocalNixOSAI where
  actionLog : List LogEntry
deriving DecidableEq

/-- `LocalNixOSAI.log`: appends exactly one entry to the action log. -/
def LocalNixOSAI.log (ai : LocalNixOSAI) (level : LogLevel) (message : String)
    (data : Option JsData) : LocalNixOSAI :=
  { actionLog := ai.actionLog ++
      [{ level := level, message := mkLogMessage message data,
         timestamp := ai.actionLog.length }] }

/-- `LocalNixOSAI.getFullActionLog`: returns the action log. -/
def LocalNixOSAI.getFullActionLog (ai : LocalNixOSAI) : List LogEntry :=
  ai.actionLog

/-- The `LocalNixOSAI` constructor, which logs its own creation. -/
def LocalNixOSAI.create : LocalNixOSAI :=
  LocalNixOSAI.log { actionLog := [] } LogLevel.INFO "LocalNixOSAI instance created." none

/-- Replays a sequence of `log` calls against an instance. -/
def runLogCalls (ai : LocalNixOSAI) (calls : List (LogLevel × String × Option JsData)) :
    LocalNixOSAI :=
  calls.foldl (fun a c => a.log c.1 c.2.1 c.2.2) ai

/-- The entries a sequence of `log` calls appends, starting at tick `ts`. -/
def expectedEntries : Nat → List (LogLevel × String × Option JsData) → List LogEntry
  | _, [] => []
  | ts, c :: rest =>
    { level := c.1, message := mkLogMessage c.2.1 c.2.2, timestamp := ts }
      :: expectedEntries (ts + 1) rest

/-- The `DialogueTurn` interface of the source. The `RegExp` field is embedded
as an abstract matcher returning the character position just after a match of
the pattern in the accumulated buffer, if any. -/
structure DialogueTurn where
  promptRegex : String → Option Nat
  response : String
  isPassword : Bool

/-- Modelled from the spec: the state of the DialogueMatcher, whose algorithm
is absent from src (the stdout handler of `executeInteractiveScriptInContainer`
holds only a TODO comment); `cursor` and `pendingBuffer` follow the spec,
`writes` records every write to the child input sink in order, and `logs`
records the matcher log messages. -/
structure MatcherState where
  cursor : Nat
  pendingBuffer : String
  writes : List String
  logs : List String
deriving DecidableEq

/-- Modelled from the spec: the log message for a match event, with the
response text redacted when the turn is confidential. -/
def matchLogMsg (i : Nat) (t : DialogueTurn) : String :=
  "Matched prompt for turn " ++ toString i ++ "; wrote response: " ++
    (if t.isPassword then "[REDACTED]" else t.response)

/-- Modelled from the spec: one DialogueMatcher step on an output chunk, the
algorithm missing from src. Append the chunk to the pending buffer; if the
cursor has passed the last turn the chunk is discarded (recorder only); else
test the buffer against the current turn's pattern; on a match write the
response plus a line terminator to the input sink, retain only the residue
after the match point, advance the cursor and log the (possibly redacted)
event; on no match keep buffering. -/
def matcherStep (turns : List DialogueTurn) (st : MatcherState) (chunk : String) :
    MatcherState :=
  match turns.get? st.cursor with
  | none => st
  | some t =>
    match t.promptRegex (st.pendingBuffer ++ chunk) with
    | some e =>
      { cursor := st.cursor + 1
        pendingBuffer := strDrop (st.pendingBuffer ++ chunk) e
        writes := st.writes ++ [t.response ++ "\n"]
        logs := st.logs ++ [matchLogMsg st.cursor t] }
    | none => { st with pendingBuffer := st.pendingBuffer ++ chunk }

/-- The initial DialogueMatcher state. -/
def matcherInit : MatcherState :=
  { cursor := 0, pendingBuffer := "", writes := [], logs := [] }

/-- Modelled from the spec: the DialogueMatcher run over a chunk sequence. -/
def runMatcher (turns : List DialogueTurn) (chunks : List String) : MatcherState :=
  chunks.foldl (matcherStep turns) matcherInit

/-- Replaces the response text of turn `i`, leaving pattern and flag intact
(used to state that logs are independent of a confidential response). -/
def setResp : List DialogueTurn → Nat → String → List DialogueTurn
  | [], _, _ => []
  | t :: rest, 0, r => { t with response := r } :: rest
  | t :: rest, Nat.succ i, r => t :: setResp rest i r

/-- The `ContainerExecutionResult` interface of the source. -/
structure ContainerExecutionResult where
  success : Bool
  stdout : String
  stderr : String
  exitCode : Option Int
  log : List String
deriving DecidableEq

/-- A chunk delivered on one of the child's output streams. -/
inductive StreamEv
  | outData (s : String)
  | errData (s : String)
deriving DecidableEq

/-- A child-process event: `close` with an exit code (null when killed by a
signal) or a spawn-level `error`. -/
inductive ProcEv
  | closeEv (code : Option Int)
  | errorEv (msg : String)
deriving DecidableEq

/-- Observable events of one `executeInteractiveScriptInContainer` call, in
program order. `evStdinWrite` is in the vocabulary although the source never
emits it (the dialogue-write logic is a TODO). -/
inductive Ev
  | evMkdtemp (dir : String)
  | evCopyScript (p : String)
  | evSpawn
  | evStdinEnd
  | evStdinWrite (s : String)
  | evRmAttempt (dir : String)
  | evOut (s : String)
  | evErr (s : String)
  | evClose (code : Option Int)
  | evSpawnErr (msg : String)
  | evSettled
deriving DecidableEq

/-- Environment fixing the outcome of every external effect of one call:
the `fs.mkdtemp`, `fs.readFile` and `fs.writeFile` results, the stream chunks
delivered before the process event, the process events in delivery order, and
the `fs.rm` outcome. -/
structure ExecEnv where
  mkdtempRes : Except String String
  readFileRes : Except String String
  writeFileRes : Except String Unit
  stream : List StreamEv
  procEvents : List ProcEv
  rmRes : Except String Unit

/-- Mutable state of one call: the event trace, the `LocalNixOSAI` action log,
the local `executionLog` array, the set of directories this call created and
not yet removed, the accumulated `stdoutData`/`stderrData`, the `exitCode`
variable, and every value passed to the promise `resolve`. -/
structure ExecSt where
  trace : List Ev
  aiLog : List LogEntry
  executionLog : List String
  fsDirs : List String
  stdoutData : String
  stderrData : String
  exitCodeVar : Option Int
  resolveCalls : List ContainerExecutionResult
deriving DecidableEq

/-- Appends one `LocalNixOSAI` log entry (no `data` argument is ever passed
inside the orchestrator). -/
def logStep (st : ExecSt) (level : LogLevel) (message : String) : ExecSt :=
  { st with aiLog := st.aiLog ++
      [{ level := level, message := message, timestamp := st.aiLog.length }] }

/-- Appends one line to the local `executionLog` array. -/
def pushEL (st : ExecSt) (line : String) : ExecSt :=
  { st with executionLog := st.executionLog ++ [line] }

/-- JS template rendering of a nullable exit code (`null` prints as "null"). -/
def optIntStr : Option Int → String
  | none => "null"
  | some n => toString n

/-- The outcome of one call: the settled result (none when the inner promise
never resolves because no process event ever fires) and the final state. -/
structure ExecOutcome where
  result : Option ContainerExecutionResult
  finalSt : ExecSt
deriving DecidableEq

/-- The opening log lines of `executeInteractiveScriptInContainer`. -/
def execStart (script : String) : ExecSt :=
  let st : ExecSt :=
    { trace := [], aiLog := [], executionLog := [], fsDirs := [],
      stdoutData := "", stderrData := "", exitCodeVar := none, resolveCalls := [] }
  pushEL (logStep st LogLevel.INFO ("Starting container execution for script: " ++ script))
    ("Starting container execution for script: " ++ script)

/-- The `finally` block: if a staging directory was created, attempt its
recursive removal; a success is logged at DEBUG, a failure is caught and
logged at ERROR, never rethrown. -/
def finallyRm (st : ExecSt) (dir : Option String) (rmRes : Except String Unit) : ExecSt :=
  match dir with
  | none => st
  | some d =>
    let st1 := { st with trace := st.trace ++ [Ev.evRmAttempt d] }
    match rmRes with
    | Except.ok _ =>
      logStep { st1 with fsDirs := st1.fsDirs.erase d } LogLevel.DEBUG
        ("Cleaned up temporary directory: " ++ d)
    | Except.error m =>
      logStep st1 LogLevel.ERROR
        ("Failed to clean up temporary directory " ++ d ++ ": " ++ m)

/-- The `catch` block followed by the `finally` block: log the error, build
the failure result from the accumulated state, run cleanup, settle. -/
def catchReturn (st : ExecSt) (dir : Option String) (rmRes : Except String Unit)
    (m : String) : ExecOutcome :=
  let st1 := logStep st LogLevel.ERROR ("Error in executeInteractiveScriptInContainer: " ++ m)
  let st2 := pushEL st1 ("Error in executeInteractiveScriptInContainer: " ++ m)
  let r : ContainerExecutionResult :=
    { success := false, stdout := st2.stdoutData,
      stderr := st2.stderrData ++ "\nOuter try-catch error: " ++ m,
      exitCode := st2.exitCodeVar, log := st2.executionLog }
  let st3 := finallyRm st2 dir rmRes
  { result := some r, finalSt := { st3 with trace := st3.trace ++ [Ev.evSettled] } }

/-- The `child.stdout.on('data')` / `child.stderr.on('data')` handlers:
stdout chunks are accumulated and pushed to `executionLog` (the action-log
line for stdout is commented out in the source); stderr chunks are
accumulated, logged at ERROR in the action log, and pushed to `executionLog`. -/
def streamStep (st : ExecSt) (ev : StreamEv) : ExecSt :=
  match ev with
  | StreamEv.outData s =>
    pushEL { st with stdoutData := st.stdoutData ++ s, trace := st.trace ++ [Ev.evOut s] }
      ("STDOUT: " ++ jsTrim s)
  | StreamEv.errData s =>
    pushEL
      (logStep { st with stderrData := st.stderrData ++ s, trace := st.trace ++ [Ev.evErr s] }
        LogLevel.ERROR ("Container STDERR: " ++ jsTrim s))
      ("STDERR: " ++ jsTrim s)

/-- State effects of one process-event handler, before the `resolve` call. -/
def procState (st : ExecSt) (ev : ProcEv) : ExecSt :=
  match ev with
  | ProcEv.closeEv code =>
    pushEL
      (logStep { st with exitCodeVar := code, trace := st.trace ++ [Ev.evClose code] }
        LogLevel.INFO ("Container process exited with code: " ++ optIntStr code))
      ("Container process exited with code: " ++ optIntStr code)
  | ProcEv.errorEv m =>
    pushEL
      (logStep { st with trace := st.trace ++ [Ev.evSpawnErr m] }
        LogLevel.ERROR ("Failed to start container process: " ++ m))
      ("Failed to start container process: " ++ m)

/-- The value passed to `resolve` by one process-event handler. -/
def procResult (st : ExecSt) (ev : ProcEv) : ContainerExecutionResult :=
  match ev with
  | ProcEv.closeEv code =>
    { success := decide (code = some 0), stdout := st.stdoutData,
      stderr := st.stderrData, exitCode := code, log := st.executionLog }
  | ProcEv.errorEv m =>
    { success := false, stdout := st.stdoutData,
      stderr := st.stderrData ++ "\nProcess spawn error: " ++ m,
      exitCode := none, log := st.executionLog }

/-- One process-event handler: state effects, then the `resolve` call. -/
def procStep (st : ExecSt) (ev : ProcEv) : ExecSt :=
  let st2 := procState st ev
  { st2 with resolveCalls := st2.resolveCalls ++ [procResult st2 ev] }

/-- Promise settlement: the first `resolve` call wins; with no `resolve` call
the promise never settles. -/
def settleOutcome (st : ExecSt) : ExecOutcome :=
  match st.resolveCalls with
  | [] => { result := none, finalSt := st }
  | r :: _ =>
    { result := some r, finalSt := { st with trace := st.trace ++ [Ev.evSettled] } }

/-- The staging steps after a successful `mkdtemp`: record the new directory
and log its creation. -/
def stagedSt (script dir : String) : ExecSt :=
  let st := execStart script
  let stA := { st with fsDirs := st.fsDirs ++ [dir], trace := st.trace ++ [Ev.evMkdtemp dir] }
  pushEL (logStep stA LogLevel.DEBUG ("Created temporary container directory: " ++ dir))
    ("Created temporary container directory: " ++ dir)

/-- The script copy and the spawn of the child: log the copy and the
`sudo systemd-nspawn` invocation, record the copy and spawn events. -/
def preSpawnSt (dir nm : String) (opts : List String) (st : ExecSt) : ExecSt :=
  let p := dir ++ "/" ++ nm
  let st1 := { st with trace := st.trace ++ [Ev.evCopyScript p] }
  let st2 := pushEL (logStep st1 LogLevel.DEBUG
      ("Copied script to " ++ p ++ " and set executable."))
    ("Copied script to " ++ p ++ " and set executable.")
  let args := ["-D", dir] ++ opts ++ ["/" ++ nm]
  let st3 := pushEL (logStep st2 LogLevel.INFO
      ("Executing: sudo systemd-nspawn " ++ joinSp args))
    ("Executing: sudo systemd-nspawn " ++ joinSp args)
  { st3 with trace := st3.trace ++ [Ev.evSpawn] }

/-- The `if (dialogueTurns.length === 0) child.stdin.end()` statement inside
the promise executor. -/
def stdinStage (turns : List DialogueTurn) (st : ExecSt) : ExecSt :=
  if turns.isEmpty then { st with trace := st.trace ++ [Ev.evStdinEnd] } else st

/-- The body from the script copy onward, reached once `mkdtemp` succeeded and
the script was read and written: log the copy and the spawn command, spawn
the child, register the handlers, close stdin at once when the turn list is
empty, then run the `finally` block — the source returns the new Promise from
inside `try` without awaiting it, so `fs.rm` is initiated before any child
event can be observed — and only then deliver the stream chunks and process
events; the promise settles with the first resolved value. -/
def runPromise (turns : List DialogueTurn) (dir : String) (nm : String)
    (opts : List String) (stream : List StreamEv) (procEvents : List ProcEv)
    (rmRes : Except String Unit) (st : ExecSt) : ExecOutcome :=
  settleOutcome (procEvents.foldl procStep (stream.foldl streamStep
    (finallyRm (stdinStage turns (preSpawnSt dir nm opts st)) (some dir) rmRes)))

/-- Shallow embedding of `executeInteractiveScriptInContainer`
(src/unnamed/part_000 lines 128-239) over an effect environment. -/
def runExec (script : String) (turns : List DialogueTurn) (opts : List String)
    (env : ExecEnv) : ExecOutcome :=
  match env.mkdtempRes with
  | Except.error m => catchReturn (execStart script) none env.rmRes m
  | Except.ok dir =>
    match env.readFileRes with
    | Except.error m => catchReturn (stagedSt script dir) (some dir) env.rmRes m
    | Except.ok _ =>
      match env.writeFileRes with
      | Except.error m => catchReturn (stagedSt script dir) (some dir) env.rmRes m
      | Except.ok _ =>
        runPromise turns dir (baseName script) opts env.stream env.procEvents env.rmRes
          (stagedSt script dir)

/-- Agreement of two matcher states on everything except the write payloads:
equal cursor, pending buffer and log messages. -/
def MRel (s u : MatcherState) : Prop :=
  s.cursor = u.cursor ∧ s.pendingBuffer = u.pendingBuffer ∧ s.logs = u.logs

/-- A plain (non-confidential) dialogue turn used as a concrete test input. -/
def turnName : DialogueTurn :=
  { promptRegex := substrPat "name?", response := "Alice", isPassword := false }

/-- A confidential dialogue turn used as a concrete test input. -/
def turnPw : DialogueTurn :=
  { promptRegex := substrPat "Password:", response := "s3cret", isPassword := true }

/-- Environment of a fully successful run: staging succeeds, no output chunks,
the child closes with exit code 0, removal succeeds. -/
def envOk : ExecEnv :=
  { mkdtempRes := Except.ok "/tmp/nixos_ai_test_X", readFileRes := Except.ok "#!/bin/bash",
    writeFileRes := Except.ok (), stream := [], procEvents := [ProcEv.closeEv (some 0)],
    rmRes := Except.ok () }

/-- Environment of a run whose child exits non-zero. -/
def envExit1 : ExecEnv :=
  { mkdtempRes := Except.ok "/tmp/nixos_ai_test_X", readFileRes := Except.ok "#!/bin/bash",
    writeFileRes := Except.ok (), stream := [], procEvents := [ProcEv.closeEv (some 1)],
    rmRes := Except.ok () }

/-- Environment of a run where the container runtime cannot be started and the
process nevertheless also reports a close event afterwards. -/
def envSpawnFail : ExecEnv :=
  { mkdtempRes := Except.ok "/tmp/nixos_ai_test_X", readFileRes := Except.ok "#!/bin/bash",
    writeFileRes := Except.ok (), stream := [],
    procEvents := [ProcEv.errorEv "spawn sudo ENOENT", ProcEv.closeEv none],
    rmRes := Except.ok () }

/-- Environment of a run where the child echoes a secret on stderr. -/
def envLeak : ExecEnv :=
  { mkdtempRes := Except.ok "/tmp/nixos_ai_test_L", readFileRes := Except.ok "#!/bin/bash",
    writeFileRes := Except.ok (), stream := [StreamEv.errData "s3cret"],
    procEvents := [ProcEv.closeEv (some 0)], rmRes := Except.ok () }

/-- Environment of a run whose staging-directory removal fails. -/
def envRmFail : ExecEnv :=
  { mkdtempRes := Except.ok "/tmp/nixos_ai_test_X", readFileRes := Except.ok "#!/bin/bash",
    writeFileRes := Except.ok (), stream := [], procEvents := [ProcEv.closeEv (some 0)],
    rmRes := Except.error "EACCES" }

/-- Agreement of two in-flight execution states on every component that can
influence the returned result: the event trace, the `executionLog`, the
captured streams, the exit-code variable and the resolve calls, plus equal
action-log length (timestamps then coincide); the action-log contents and the
filesystem model may differ. -/
def AgreeSt (s u : ExecSt) : Prop :=
  s.trace = u.trace ∧ s.executionLog = u.executionLog ∧ s.stdoutData = u.stdoutData ∧
  s.stderrData = u.stderrData ∧ s.exitCodeVar = u.exitCodeVar ∧
  s.resolveCalls = u.resolveCalls ∧ s.aiLog.length = u.aiLog.length

lemma matcherStep_match (turns : List DialogueTurn) (st : MatcherState) (chunk : String)
    (t : DialogueTurn) (e : Nat)
    (hg : turns.get? st.cursor = some t)
    (hm : t.promptRegex (st.pendingBuffer ++ chunk) = some e) :
    matcherStep turns st chunk =
      { cursor := st.cursor + 1
        pendingBuffer := strDrop (st.pendingBuffer ++ chunk) e
        writes := st.writes ++ [t.response ++ "\n"]
        logs := st.logs ++ [matchLogMsg st.cursor t] } := by
  unfold matcherStep
  simp only [hg, hm]

lemma matcherStep_stay (turns : List DialogueTurn) (st : MatcherState) (chunk : String) :
    (matcherStep turns st chunk).cursor = st.cursor ∧
      (matcherStep turns st chunk).writes = st.writes ∧
      (matcherStep turns st chunk).logs = st.logs ∨
    ∃ t e, turns.get? st.cursor = some t ∧
      t.promptRegex (st.pendingBuffer ++ chunk) = some e := by
  cases hg : turns.get? st.cursor with
  | none =>
    left
    have hs : matcherStep turns st chunk = st := by
      unfold matcherStep
      simp only [hg]
    rw [hs]
    exact ⟨rfl, rfl, rfl⟩
  | some t =>
    cases hm : t.promptRegex (st.pendingBuffer ++ chunk) with
    | none =>
      left
      have hs : matcherStep turns st chunk =
          { st with pendingBuffer := st.pendingBuffer ++ chunk } := by
        unfold matcherStep
        simp only [hg, hm]
      rw [hs]
      exact ⟨rfl, rfl, rfl⟩
    | some e => exact Or.inr ⟨t, e, rfl, hm⟩

lemma matcherStep_inv (turns : List DialogueTurn) (st : MatcherState) (chunk : String)
    (h1 : st.cursor ≤ turns.length)
    (h2 : st.writes = (turns.take st.cursor).map (fun t => t.response ++ "\n")) :
    (matcherStep turns st chunk).cursor ≤ turns.length ∧
    (matcherStep turns st chunk).writes =
      (turns.take (matcherStep turns st chunk).cursor).map (fun t => t.response ++ "\n") := by
  cases hg : turns.get? st.cursor with
  | none =>
    have hs : matcherStep turns st chunk = st := by
      unfold matcherStep
      simp only [hg]
    rw [hs]
    exact ⟨h1, h2⟩
  | some t =>
    cases hm : t.promptRegex (st.pendingBuffer ++ chunk) with
    | none =>
      have hs : matcherStep turns st chunk =
          { st with pendingBuffer := st.pendingBuffer ++ chunk } := by
        unfold matcherStep
        simp only [hg, hm]
      rw [hs]
      exact ⟨h1, h2⟩
    | some e =>
      rw [matcherStep_match turns st chunk t e hg hm]
      have hlt : st.cursor < turns.length := by
        have h0 := List.get?_eq_getElem? turns st.cursor
        rw [hg] at h0
        exact (List.getElem?_eq_some.mp h0.symm).1
      refine ⟨hlt, ?_⟩
      show st.writes ++ [t.response ++ "\n"] =
        (turns.take (st.cursor + 1)).map (fun t => t.response ++ "\n")
      rw [h2, List.take_succ]
      have hge : turns[st.cursor]? = some t := by
        rw [← List.get?_eq_getElem?]
        exact hg
      rw [hge]
      simp

lemma foldl_matcherStep_inv (turns : List DialogueTurn) (chunks : List String) :
    ∀ st : MatcherState,
      st.cursor ≤ turns.length →
      st.writes = (turns.take st.cursor).map (fun t => t.response ++ "\n") →
      ((chunks.foldl (matcherStep turns) st).cursor ≤ turns.length ∧
       (chunks.foldl (matcherStep turns) st).writes =
         (turns.take (chunks.foldl (matcherStep turns) st).cursor).map
           (fun t => t.response ++ "\n")) := by
  induction chunks with
  | nil => intro st h1 h2; exact ⟨h1, h2⟩
  | cons c rest ih =>
    intro st h1 h2
    have hs := matcherStep_inv turns st c h1 h2
    exact ih _ hs.1 hs.2

lemma runMatcher_inv (turns : List DialogueTurn) (chunks : List String) :
    (runMatcher turns chunks).cursor ≤ turns.length ∧
    (runMatcher turns chunks).writes =
      (turns.take (runMatcher turns chunks).cursor).map (fun t => t.response ++ "\n") :=
  foldl_matcherStep_inv turns chunks matcherInit (Nat.zero_le _) rfl


lemma setResp_get? : ∀ (turns : List DialogueTurn) (i j : Nat) (r : String),
    (setResp turns i r).get? j =
      (turns.get? j).map (fun t => if j = i then { t with response := r } else t) := by
  intro turns
  induction turns with
  | nil => intro i j r; simp [setResp]
  | cons t rest ih =>
    intro i j r
    cases i with
    | zero =>
      cases j with
      | zero => simp [setResp]
      | succ k => simp [setResp]
    | succ i2 =>
      cases j with
      | zero => simp [setResp]
      | succ k =>
        have h2 := ih i2 k r
        rw [List.get?_eq_getElem?, List.get?_eq_getElem?] at h2
        simp [setResp, h2]

lemma matcherStep_MRel (turns : List DialogueTurn) (i : Nat) (r : String)
    (t0 : DialogueTurn) (hi : turns.get? i = some t0) (hp : t0.isPassword = true) :
    ∀ (s u : MatcherState) (chunk : String), MRel s u →
      MRel (matcherStep (setResp turns i r) s chunk) (matcherStep turns u chunk) := by
  intro s u chunk hM
  obtain ⟨hc, hb, hl⟩ := hM
  cases hg : turns.get? u.cursor with
  | none =>
    have hg2 : (setResp turns i r).get? s.cursor = none := by
      rw [setResp_get?, hc, hg]
      rfl
    have hs1 : matcherStep (setResp turns i r) s chunk = s := by
      unfold matcherStep
      simp only [hg2]
    have hs2 : matcherStep turns u chunk = u := by
      unfold matcherStep
      simp only [hg]
    rw [hs1, hs2]
    exact ⟨hc, hb, hl⟩
  | some t =>
    have hg2 : (setResp turns i r).get? s.cursor =
        some (if u.cursor = i then { t with response := r } else t) := by
      rw [setResp_get?, hc, hg]
      rfl
    have hpr : (if u.cursor = i then { t with response := r } else t).promptRegex
        = t.promptRegex := by
      by_cases hui : u.cursor = i
      · rw [if_pos hui]
      · rw [if_neg hui]
    cases hm : t.promptRegex (u.pendingBuffer ++ chunk) with
    | none =>
      have hm2 : (if u.cursor = i then { t with response := r } else t).promptRegex
          (s.pendingBuffer ++ chunk) = none := by
        rw [hpr, hb]
        exact hm
      have hs1 : matcherStep (setResp turns i r) s chunk =
          { s with pendingBuffer := s.pendingBuffer ++ chunk } := by
        unfold matcherStep
        simp only [hg2, hm2]
      have hs2 : matcherStep turns u chunk =
          { u with pendingBuffer := u.pendingBuffer ++ chunk } := by
        unfold matcherStep
        simp only [hg, hm]
      rw [hs1, hs2]
      exact ⟨hc, by simp [hb], hl⟩
    | some e =>
      have hm2 : (if u.cursor = i then { t with response := r } else t).promptRegex
          (s.pendingBuffer ++ chunk) = some e := by
        rw [hpr, hb]
        exact hm
      rw [matcherStep_match (setResp turns i r) s chunk _ e hg2 hm2,
        matcherStep_match turns u chunk t e hg hm]
      refine ⟨by simp [hc], by simp [hb], ?_⟩
      show s.logs ++ [matchLogMsg s.cursor (if u.cursor = i then { t with response := r } else t)]
        = u.logs ++ [matchLogMsg u.cursor t]
      rw [hl, hc]
      by_cases hui : u.cursor = i
      · rw [if_pos hui]
        have ht0 : t = t0 := by
          rw [hui] at hg
          rw [hg] at hi
          exact (Option.some.injEq _ _).mp hi
        unfold matchLogMsg
        rw [ht0]
        simp [hp]
      · rw [if_neg hui]

lemma foldl_matcherStep_MRel (turns : List DialogueTurn) (i : Nat) (r : String)
    (t0 : DialogueTurn) (hi : turns.get? i = some t0) (hp : t0.isPassword = true) :
    ∀ (chunks : List String) (s u : MatcherState), MRel s u →
      MRel (chunks.foldl (matcherStep (setResp turns i r)) s)
        (chunks.foldl (matcherStep turns) u) := by
  intro chunks
  induction chunks with
  | nil => intro s u hM; exact hM
  | cons c rest ih =>
    intro s u hM
    exact ih _ _ (matcherStep_MRel turns i r t0 hi hp s u c hM)

lemma matchEndAux_suffix (n : List Char) : ∀ (pre : List Char) (k : Nat),
    (matchEndAux n (pre ++ n) k).isSome = true := by
  intro pre
  induction pre with
  | nil =>
    intro k
    cases n with
    | nil => simp [matchEndAux]
    | cons c rest =>
      have hpre : (c :: rest).isPrefixOf (c :: rest) = true :=
        List.isPrefixOf_iff_prefix.mpr (List.prefix_refl _)
      simp only [List.nil_append]
      unfold matchEndAux
      simp [hpre]
  | cons c pre ih =>
    intro k
    simp only [List.cons_append]
    unfold matchEndAux
    cases hpre : n.isPrefixOf (c :: (pre ++ n)) <;> simp [hpre, ih]

lemma containsStr_append_self (pre s : String) : containsStr s (pre ++ s) = true := by
  unfold containsStr
  have h : (pre ++ s).toList = pre.toList ++ s.toList := by
    simp [String.toList]
  rw [h]
  exact matchEndAux_suffix s.toList pre.toList 0

/-- Claim C1: on every chunk received while the cursor has not reached the end
of the turn sequence, a buffer match writes that turn's response plus a line
terminator to the input sink, retains only the residue after the match point,
and advances the cursor; globally the write list is exactly the responses of
the matched turns in turn order (so the number of input-sink writes equals the
number of matched turns and writes occur strictly in turn order). -/
theorem matcher_write_count_and_order (turns : List DialogueTurn) (chunks : List String) :
    ((runMatcher turns chunks).cursor ≤ turns.length ∧
     (runMatcher turns chunks).writes =
       (turns.take (runMatcher turns chunks).cursor).map (fun t => t.response ++ "\n")) ∧
    ∀ (st : MatcherState) (chunk : String) (t : DialogueTurn) (e : Nat),
      turns.get? st.cursor = some t →
      t.promptRegex (st.pendingBuffer ++ chunk) = some e →
      matcherStep turns st chunk =
        { cursor := st.cursor + 1
          pendingBuffer := strDrop (st.pendingBuffer ++ chunk) e
          writes := st.writes ++ [t.response ++ "\n"]
          logs := st.logs ++ [matchLogMsg st.cursor t] } :=
  ⟨runMatcher_inv turns chunks,
   fun st chunk t e hg hm => matcherStep_match turns st chunk t e hg hm⟩

/-- Witness for the C1 theorem at a concrete turn list and chunk. -/
theorem matcher_write_count_and_order_w :
    matcherStep [turnName] matcherInit "What is your name? " =
      { cursor := 1
        pendingBuffer := strDrop ("" ++ "What is your name? ") 18
        writes := ["Alice" ++ "\n"]
        logs := [matchLogMsg 0 turnName] } :=
  (matcher_write_count_and_order [turnName] []).2 matcherInit "What is your name? "
    turnName 18 rfl (by decide)

/-- Counterexample for C7 as stated: in an execution whose child echoes the
confidential response text on stderr, the stderr handler of
`executeInteractiveScriptInContainer` records that text verbatim inside a
`LogEntry` message, so a confidential turn's response can appear in the action
log. -/
theorem confidential_leak_via_stderr_cex :
    turnPw.isPassword = true ∧ turnPw.response = "s3cret" ∧
    (runExec "scripts/install.sh" [turnPw] [] envLeak).finalSt.aiLog.any
      (fun e => containsStr turnPw.response e.message) = true := by
  refine ⟨rfl, rfl, ?_⟩
  decide

/-- Claim C7 (amended): the orchestrator itself never puts a confidential
response into the log: the DialogueMatcher's log sequence (and cursor) is
invariant under replacing the response text of a confidential turn, while the
response is still written to the child's input sink at its turn position. -/
theorem matcher_confidential_redaction (turns : List DialogueTurn) (chunks : List String)
    (i : Nat) (r : String) (t0 : DialogueTurn)
    (hi : turns.get? i = some t0) (hp : t0.isPassword = true) :
    ((runMatcher (setResp turns i r) chunks).logs = (runMatcher turns chunks).logs ∧
     (runMatcher (setResp turns i r) chunks).cursor = (runMatcher turns chunks).cursor) ∧
    (i < (runMatcher turns chunks).cursor →
      (runMatcher turns chunks).writes.get? i = some (t0.response ++ "\n")) := by
  constructor
  · unfold runMatcher
    have h := foldl_matcherStep_MRel turns i r t0 hi hp chunks matcherInit matcherInit
      ⟨rfl, rfl, rfl⟩
    exact ⟨h.2.2, h.1⟩
  · intro hcur
    have hinv := (runMatcher_inv turns chunks).2
    rw [hinv, List.get?_map, List.get?_take hcur, hi]
    rfl

/-- Witness for the C7 amended theorem at a concrete confidential turn. -/
theorem matcher_confidential_redaction_w :
    ((runMatcher (setResp [turnPw] 0 "x") ["Password: "]).logs
        = (runMatcher [turnPw] ["Password: "]).logs ∧
     (runMatcher (setResp [turnPw] 0 "x") ["Password: "]).cursor
        = (runMatcher [turnPw] ["Password: "]).cursor) ∧
    (0 < (runMatcher [turnPw] ["Password: "]).cursor →
      (runMatcher [turnPw] ["Password: "]).writes.get? 0 = some (turnPw.response ++ "\n")) :=
  matcher_confidential_redaction [turnPw] ["Password: "] 0 "x" turnPw rfl rfl

/-- Counterexample for C10 as stated: a supplied but falsy `data` argument
(the number 0) is dropped by the JS truthiness test `data ? ... : message`,
so the stored message does not embed the serialized data. -/
theorem log_falsy_data_cex :
    (LocalNixOSAI.log { actionLog := [] } LogLevel.INFO "Processing function call"
        (some (JsData.jsNum 0))).getFullActionLog
      = [{ level := LogLevel.INFO, message := "Processing function call", timestamp := 0 }] ∧
    containsStr (stringifyData (JsData.jsNum 0)) "Processing function call" = false := by
  refine ⟨rfl, ?_⟩
  decide

/-- Claim C10 (amended): every `LocalNixOSAI.log` call appends exactly one
entry, previous entries are unchanged, `getFullActionLog` returns all entries
in call order, and the message embeds the serialized `data` argument whenever
a truthy one is supplied. -/
theorem localai_log_append_order (ai : LocalNixOSAI)
    (calls : List (LogLevel × String × Option JsData)) :
    (runLogCalls ai calls).getFullActionLog
      = ai.actionLog ++ expectedEntries ai.actionLog.length calls ∧
    ∀ (msg : String) (d : JsData), truthy d = true →
      containsStr (stringifyData d) (mkLogMessage msg (some d)) = true := by
  constructor
  · induction calls generalizing ai with
    | nil => simp [runLogCalls, expectedEntries, LocalNixOSAI.getFullActionLog]
    | cons c rest ih =>
      show (runLogCalls (ai.log c.1 c.2.1 c.2.2) rest).getFullActionLog = _
      rw [ih (ai.log c.1 c.2.1 c.2.2)]
      simp [LocalNixOSAI.log, expectedEntries, List.append_assoc]
  · intro msg d hd
    have h1 : mkLogMessage msg (some d) = (msg ++ " Data: ") ++ stringifyData d := by
      unfold mkLogMessage
      simp [hd]
    rw [h1]
    exact containsStr_append_self _ _

/-- Witness for the C10 amended theorem at a concrete call list. -/
theorem localai_log_append_order_w :
    (runLogCalls { actionLog := [] }
        [(LogLevel.INFO, "User input", some (JsData.jsStr "ls"))]).getFullActionLog
      = [] ++ expectedEntries 0 [(LogLevel.INFO, "User input", some (JsData.jsStr "ls"))] ∧
    containsStr (stringifyData (JsData.jsStr "ls"))
      (mkLogMessage "User input" (some (JsData.jsStr "ls"))) = true := by
  refine ⟨?_, ?_⟩
  · exact (localai_log_append_order { actionLog := [] }
      [(LogLevel.INFO, "User input", some (JsData.jsStr "ls"))]).1
  · exact (localai_log_append_order { actionLog := [] }
      [(LogLevel.INFO, "User input", some (JsData.jsStr "ls"))]).2 "User input"
      (JsData.jsStr "ls") (by decide)

lemma streamStep_fsDirs (st : ExecSt) (ev : StreamEv) :
    (streamStep st ev).fsDirs = st.fsDirs := by
  cases ev <;> rfl

lemma streamStep_resolveCalls (st : ExecSt) (ev : StreamEv) :
    (streamStep st ev).resolveCalls = st.resolveCalls := by
  cases ev <;> rfl

lemma streamStep_trace_app (st : ExecSt) (ev : StreamEv) :
    ∃ l, (streamStep st ev).trace = st.trace ++ l := by
  cases ev <;> exact ⟨_, rfl⟩

lemma streamStep_aiLog_app (st : ExecSt) (ev : StreamEv) :
    ∃ l, (streamStep st ev).aiLog = st.aiLog ++ l := by
  cases ev with
  | outData s => exact ⟨[], (List.append_nil _).symm⟩
  | errData s => exact ⟨_, rfl⟩

lemma procStep_fsDirs (st : ExecSt) (ev : ProcEv) :
    (procStep st ev).fsDirs = st.fsDirs := by
  cases ev <;> rfl

lemma procStep_trace_app (st : ExecSt) (ev : ProcEv) :
    ∃ l, (procStep st ev).trace = st.trace ++ l := by
  cases ev <;> exact ⟨_, rfl⟩

lemma procStep_aiLog_app (st : ExecSt) (ev : ProcEv) :
    ∃ l, (procStep st ev).aiLog = st.aiLog ++ l := by
  cases ev <;> exact ⟨_, rfl⟩

lemma procStep_resolveCalls (st : ExecSt) (ev : ProcEv) :
    (procStep st ev).resolveCalls = st.resolveCalls ++ [procResult (procState st ev) ev] := by
  cases ev <;> rfl

lemma foldl_streamStep_fsDirs (l : List StreamEv) : ∀ st : ExecSt,
    (l.foldl streamStep st).fsDirs = st.fsDirs := by
  induction l with
  | nil => intro st; rfl
  | cons e rest ih => intro st; rw [List.foldl_cons, ih, streamStep_fsDirs]

lemma foldl_streamStep_resolveCalls (l : List StreamEv) : ∀ st : ExecSt,
    (l.foldl streamStep st).resolveCalls = st.resolveCalls := by
  induction l with
  | nil => intro st; rfl
  | cons e rest ih => intro st; rw [List.foldl_cons, ih, streamStep_resolveCalls]

lemma foldl_streamStep_trace_app (l : List StreamEv) : ∀ st : ExecSt,
    ∃ t, (l.foldl streamStep st).trace = st.trace ++ t := by
  induction l with
  | nil => intro st; exact ⟨[], (List.append_nil _).symm⟩
  | cons e rest ih =>
    intro st
    obtain ⟨t1, h1⟩ := streamStep_trace_app st e
    obtain ⟨t2, h2⟩ := ih (streamStep st e)
    exact ⟨t1 ++ t2, by rw [List.foldl_cons, h2, h1, List.append_assoc]⟩

lemma foldl_streamStep_aiLog_app (l : List StreamEv) : ∀ st : ExecSt,
    ∃ t, (l.foldl streamStep st).aiLog = st.aiLog ++ t := by
  induction l with
  | nil => intro st; exact ⟨[], (List.append_nil _).symm⟩
  | cons e rest ih =>
    intro st
    obtain ⟨t1, h1⟩ := streamStep_aiLog_app st e
    obtain ⟨t2, h2⟩ := ih (streamStep st e)
    exact ⟨t1 ++ t2, by rw [List.foldl_cons, h2, h1, List.append_assoc]⟩

lemma foldl_procStep_fsDirs (l : List ProcEv) : ∀ st : ExecSt,
    (l.foldl procStep st).fsDirs = st.fsDirs := by
  induction l with
  | nil => intro st; rfl
  | cons e rest ih => intro st; rw [List.foldl_cons, ih, procStep_fsDirs]

lemma foldl_procStep_trace_app (l : List ProcEv) : ∀ st : ExecSt,
    ∃ t, (l.foldl procStep st).trace = st.trace ++ t := by
  induction l with
  | nil => intro st; exact ⟨[], (List.append_nil _).symm⟩
  | cons e rest ih =>
    intro st
    obtain ⟨t1, h1⟩ := procStep_trace_app st e
    obtain ⟨t2, h2⟩ := ih (procStep st e)
    exact ⟨t1 ++ t2, by rw [List.foldl_cons, h2, h1, List.append_assoc]⟩

lemma foldl_procStep_aiLog_app (l : List ProcEv) : ∀ st : ExecSt,
    ∃ t, (l.foldl procStep st).aiLog = st.aiLog ++ t := by
  induction l with
  | nil => intro st; exact ⟨[], (List.append_nil _).symm⟩
  | cons e rest ih =>
    intro st
    obtain ⟨t1, h1⟩ := procStep_aiLog_app st e
    obtain ⟨t2, h2⟩ := ih (procStep st e)
    exact ⟨t1 ++ t2, by rw [List.foldl_cons, h2, h1, List.append_assoc]⟩

lemma foldl_procStep_head (l : List ProcEv) : ∀ (st : ExecSt)
    (r : ContainerExecutionResult) (rs : List ContainerExecutionResult),
    st.resolveCalls = r :: rs →
    ∃ rs2, (l.foldl procStep st).resolveCalls = r :: rs2 := by
  induction l with
  | nil => intro st r rs h; exact ⟨rs, h⟩
  | cons e rest ih =>
    intro st r rs h
    have h2 : (procStep st e).resolveCalls = r :: (rs ++ [procResult (procState st e) e]) := by
      rw [procStep_resolveCalls, h, List.cons_append]
    exact ih (procStep st e) r _ h2

lemma finallyRm_trace (st : ExecSt) (d : String) (rmRes : Except String Unit) :
    (finallyRm st (some d) rmRes).trace = st.trace ++ [Ev.evRmAttempt d] := by
  cases rmRes <;> rfl

lemma finallyRm_resolveCalls (st : ExecSt) (dir : Option String) (rmRes : Except String Unit) :
    (finallyRm st dir rmRes).resolveCalls = st.resolveCalls := by
  cases dir <;> cases rmRes <;> rfl

lemma finallyRm_executionLog (st : ExecSt) (dir : Option String) (rmRes : Except String Unit) :
    (finallyRm st dir rmRes).executionLog = st.executionLog := by
  cases dir <;> cases rmRes <;> rfl

lemma finallyRm_fsDirs_ok (st : ExecSt) (d : String) :
    (finallyRm st (some d) (Except.ok ())).fsDirs = st.fsDirs.erase d := rfl

lemma finallyRm_err_aiLog (st : ExecSt) (d m : String) :
    (finallyRm st (some d) (Except.error m)).aiLog = st.aiLog ++
      [{ level := LogLevel.ERROR,
         message := "Failed to clean up temporary directory " ++ d ++ ": " ++ m,
         timestamp := st.aiLog.length }] := rfl

lemma stdinStage_fsDirs (turns : List DialogueTurn) (st : ExecSt) :
    (stdinStage turns st).fsDirs = st.fsDirs := by
  unfold stdinStage
  split <;> rfl

lemma stdinStage_resolveCalls (turns : List DialogueTurn) (st : ExecSt) :
    (stdinStage turns st).resolveCalls = st.resolveCalls := by
  unfold stdinStage
  split <;> rfl

lemma stdinStage_trace_app (turns : List DialogueTurn) (st : ExecSt) :
    ∃ l, (stdinStage turns st).trace = st.trace ++ l := by
  unfold stdinStage
  split
  · exact ⟨_, rfl⟩
  · exact ⟨[], (List.append_nil _).symm⟩

lemma settleOutcome_nil (st : ExecSt) (h : st.resolveCalls = []) :
    settleOutcome st = { result := none, finalSt := st } := by
  unfold settleOutcome
  simp only [h]

lemma settleOutcome_cons (st : ExecSt) (r : ContainerExecutionResult)
    (rs : List ContainerExecutionResult) (h : st.resolveCalls = r :: rs) :
    settleOutcome st =
      { result := some r,
        finalSt := { st with trace := st.trace ++ [Ev.evSettled] } } := by
  unfold settleOutcome
  simp only [h]

lemma catchReturn_trace_some (st : ExecSt) (d : String) (rmRes : Except String Unit)
    (m : String) :
    (catchReturn st (some d) rmRes m).finalSt.trace =
      (st.trace ++ [Ev.evRmAttempt d]) ++ [Ev.evSettled] := by
  cases rmRes <;> rfl

lemma catchReturn_fsDirs_ok (st : ExecSt) (d : String) (m : String) :
    (catchReturn st (some d) (Except.ok ()) m).finalSt.fsDirs = st.fsDirs.erase d := rfl

/-- Claim C2: on every exit path of `executeInteractiveScriptInContainer` that
settles (clean exit, non-zero exit, spawn failure, internal staging error),
the removal of the ephemeral staging root is performed before the returned
promise settles, and when the removal call succeeds the root is absent from
the filesystem model afterwards. -/
theorem exec_staging_cleanup_all_paths (script : String) (turns : List DialogueTurn)
    (opts : List String) (env : ExecEnv) (dir : String)
    (hm : env.mkdtempRes = Except.ok dir)
    (hs : ((runExec script turns opts env).result).isSome = true) :
    (∃ pre, (runExec script turns opts env).finalSt.trace = pre ++ [Ev.evSettled] ∧
      Ev.evRmAttempt dir ∈ pre) ∧
    (env.rmRes = Except.ok () → dir ∉ (runExec script turns opts env).finalSt.fsDirs) := by
  obtain ⟨f1, f2, f3, f4, f5, f6⟩ := env
  simp only at hm
  subst hm
  cases f2 with
  | error m2 =>
    have he : runExec script turns opts ⟨Except.ok dir, Except.error m2, f3, f4, f5, f6⟩
        = catchReturn (stagedSt script dir) (some dir) f6 m2 := rfl
    rw [he] at hs ⊢
    constructor
    · refine ⟨(stagedSt script dir).trace ++ [Ev.evRmAttempt dir],
        catchReturn_trace_some _ _ _ _, ?_⟩
      simp
    · intro hrm
      simp only at hrm
      subst hrm
      rw [catchReturn_fsDirs_ok]
      have hfs : (stagedSt script dir).fsDirs = [dir] := rfl
      rw [hfs]
      simp
  | ok content =>
    cases f3 with
    | error m2 =>
      have he : runExec script turns opts ⟨Except.ok dir, Except.ok content,
          Except.error m2, f4, f5, f6⟩
          = catchReturn (stagedSt script dir) (some dir) f6 m2 := rfl
      rw [he] at hs ⊢
      constructor
      · refine ⟨(stagedSt script dir).trace ++ [Ev.evRmAttempt dir],
          catchReturn_trace_some _ _ _ _, ?_⟩
        simp
      · intro hrm
        simp only at hrm
        subst hrm
        rw [catchReturn_fsDirs_ok]
        have hfs : (stagedSt script dir).fsDirs = [dir] := rfl
        rw [hfs]
        simp
    | ok u =>
      cases u
      have he : runExec script turns opts ⟨Except.ok dir, Except.ok content,
          Except.ok (), f4, f5, f6⟩
          = settleOutcome (f5.foldl procStep (f4.foldl streamStep
              (finallyRm (stdinStage turns (preSpawnSt dir (baseName script) opts
                (stagedSt script dir))) (some dir) f6))) := rfl
      rw [he] at hs ⊢
      set X := stdinStage turns (preSpawnSt dir (baseName script) opts (stagedSt script dir))
        with hX
      set S0 := finallyRm X (some dir) f6 with hS0
      set stS := f4.foldl streamStep S0 with hstS
      set stF := f5.foldl procStep stS with hstF
      have hmemF : Ev.evRmAttempt dir ∈ stF.trace := by
        have h0 : Ev.evRmAttempt dir ∈ S0.trace := by
          rw [hS0, finallyRm_trace]
          simp
        obtain ⟨t1, h1⟩ := foldl_streamStep_trace_app f4 S0
        obtain ⟨t2, h2⟩ := foldl_procStep_trace_app f5 stS
        rw [hstF, h2, hstS, h1]
        exact List.mem_append_left _ (List.mem_append_left _ h0)
      cases hrc : stF.resolveCalls with
      | nil =>
        rw [settleOutcome_nil stF hrc] at hs
        simp at hs
      | cons r rs =>
        rw [settleOutcome_cons stF r rs hrc]
        constructor
        · exact ⟨stF.trace, rfl, hmemF⟩
        · intro hrm
          simp only at hrm
          subst hrm
          show dir ∉ stF.fsDirs
          rw [hstF, foldl_procStep_fsDirs, hstS, foldl_streamStep_fsDirs, hS0,
            finallyRm_fsDirs_ok, hX, stdinStage_fsDirs]
          have hfs : (preSpawnSt dir (baseName script) opts (stagedSt script dir)).fsDirs
              = [dir] := rfl
          rw [hfs]
          simp

/-- Witness for the C2 theorem at a concrete successful environment. -/
theorem exec_staging_cleanup_all_paths_w :
    (∃ pre, (runExec "scripts/simple_dialogue.sh" [] [] envOk).finalSt.trace
        = pre ++ [Ev.evSettled] ∧ Ev.evRmAttempt "/tmp/nixos_ai_test_X" ∈ pre) ∧
    (envOk.rmRes = Except.ok () →
      "/tmp/nixos_ai_test_X" ∉ (runExec "scripts/simple_dialogue.sh" [] [] envOk).finalSt.fsDirs) :=
  exec_staging_cleanup_all_paths "scripts/simple_dialogue.sh" [] [] envOk
    "/tmp/nixos_ai_test_X" rfl (by decide)

lemma settle_foldl_first (stS : ExecSt) (e : ProcEv) (rest : List ProcEv)
    (hrc : stS.resolveCalls = []) :
    (settleOutcome ((e :: rest).foldl procStep stS)).result
      = some (procResult (procState stS e) e) ∧
    (settleOutcome ([e].foldl procStep stS)).result
      = some (procResult (procState stS e) e) := by
  have h1 : (procStep stS e).resolveCalls = procResult (procState stS e) e :: [] := by
    rw [procStep_resolveCalls, hrc]
    rfl
  constructor
  · obtain ⟨rs2, h2⟩ := foldl_procStep_head rest (procStep stS e) _ [] h1
    rw [List.foldl_cons, settleOutcome_cons _ _ _ h2]
  · rw [List.foldl_cons, List.foldl_nil, settleOutcome_cons _ _ _ h1]

lemma promise_pre_resolveCalls (script dir nm : String) (turns : List DialogueTurn)
    (opts : List String) (f4 : List StreamEv) (f6 : Except String Unit) :
    (f4.foldl streamStep (finallyRm (stdinStage turns (preSpawnSt dir nm opts
      (stagedSt script dir))) (some dir) f6)).resolveCalls = [] := by
  rw [foldl_streamStep_resolveCalls, finallyRm_resolveCalls, stdinStage_resolveCalls]
  rfl

/-- Claim C4: whenever the child spawns and reports an exit code, the returned
ExecutionResult carries that exit code and success equals (exitCode == 0); a
non-zero exit is returned as data, not raised. -/
theorem exec_exit_code_as_data (script : String) (turns : List DialogueTurn)
    (opts : List String) (env : ExecEnv) (dir content : String) (k : Int)
    (rest : List ProcEv)
    (hm : env.mkdtempRes = Except.ok dir)
    (hr : env.readFileRes = Except.ok content)
    (hw : env.writeFileRes = Except.ok ())
    (hp : env.procEvents = ProcEv.closeEv (some k) :: rest) :
    ∃ r, (runExec script turns opts env).result = some r ∧
      r.success = decide (k = 0) ∧ r.exitCode = some k := by
  obtain ⟨f1, f2, f3, f4, f5, f6⟩ := env
  simp only at hm hr hw hp
  subst hm; subst hr; subst hw; subst hp
  have hrc := promise_pre_resolveCalls script dir (baseName script) turns opts f4 f6
  have hfirst := settle_foldl_first _ (ProcEv.closeEv (some k)) rest hrc
  have heL : runExec script turns opts
      ⟨Except.ok dir, Except.ok content, Except.ok (), f4,
        ProcEv.closeEv (some k) :: rest, f6⟩
      = settleOutcome ((ProcEv.closeEv (some k) :: rest).foldl procStep
          (f4.foldl streamStep (finallyRm (stdinStage turns (preSpawnSt dir
            (baseName script) opts (stagedSt script dir))) (some dir) f6))) := rfl
  rw [heL, hfirst.1]
  refine ⟨_, rfl, ?_, rfl⟩
  show decide ((some k : Option Int) = some 0) = decide (k = 0)
  simp

/-- Witness for the C4 theorem at a concrete non-zero exit. -/
theorem exec_exit_code_as_data_w :
    ∃ r, (runExec "scripts/simple_dialogue.sh" [] [] envExit1).result = some r ∧
      r.success = decide ((1 : Int) = 0) ∧ r.exitCode = some 1 :=
  exec_exit_code_as_data "scripts/simple_dialogue.sh" [] [] envExit1
    "/tmp/nixos_ai_test_X" "#!/bin/bash" 1 [] rfl rfl rfl rfl

/-- Claim C5: a spawn-level error produces a structured result with
success=false and exitCode null, returned rather than thrown, and therefore
distinct from a non-zero child exit (whose exitCode is present). -/
theorem exec_spawn_error_result (script : String) (turns : List DialogueTurn)
    (opts : List String) (env : ExecEnv) (dir content msg : String)
    (rest : List ProcEv)
    (hm : env.mkdtempRes = Except.ok dir)
    (hr : env.readFileRes = Except.ok content)
    (hw : env.writeFileRes = Except.ok ())
    (hp : env.procEvents = ProcEv.errorEv msg :: rest) :
    ∃ r, (runExec script turns opts env).result = some r ∧
      r.success = false ∧ r.exitCode = none := by
  obtain ⟨f1, f2, f3, f4, f5, f6⟩ := env
  simp only at hm hr hw hp
  subst hm; subst hr; subst hw; subst hp
  have hrc := promise_pre_resolveCalls script dir (baseName script) turns opts f4 f6
  have hfirst := settle_foldl_first _ (ProcEv.errorEv msg) rest hrc
  have heL : runExec script turns opts
      ⟨Except.ok dir, Except.ok content, Except.ok (), f4,
        ProcEv.errorEv msg :: rest, f6⟩
      = settleOutcome ((ProcEv.errorEv msg :: rest).foldl procStep
          (f4.foldl streamStep (finallyRm (stdinStage turns (preSpawnSt dir
            (baseName script) opts (stagedSt script dir))) (some dir) f6))) := rfl
  rw [heL, hfirst.1]
  exact ⟨_, rfl, rfl, rfl⟩

/-- Witness for the C5 theorem at a concrete spawn failure. -/
theorem exec_spawn_error_result_w :
    ∃ r, (runExec "scripts/simple_dialogue.sh" [] [] envSpawnFail).result = some r ∧
      r.success = false ∧ r.exitCode = none :=
  exec_spawn_error_result "scripts/simple_dialogue.sh" [] [] envSpawnFail
    "/tmp/nixos_ai_test_X" "#!/bin/bash" "spawn sudo ENOENT" [ProcEv.closeEv none]
    rfl rfl rfl rfl

/-- Claim C9: the returned promise settles with exactly one result: on every
environment that delivers at least one process event the call settles, and
delivering further events after the first (for example a close event after a
spawn error) does not change the settled result, because only the first
resolve call wins. -/
theorem exec_single_result (script : String) (turns : List DialogueTurn)
    (opts : List String) (env : ExecEnv) (e : ProcEv) (rest : List ProcEv)
    (hp : env.procEvents = e :: rest) :
    ((runExec script turns opts env).result).isSome = true ∧
    (runExec script turns opts env).result
      = (runExec script turns opts { env with procEvents := [e] }).result := by
  obtain ⟨f1, f2, f3, f4, f5, f6⟩ := env
  simp only at hp
  subst hp
  cases f1 with
  | error m => exact ⟨rfl, rfl⟩
  | ok dir =>
    cases f2 with
    | error m => exact ⟨rfl, rfl⟩
    | ok content =>
      cases f3 with
      | error m => exact ⟨rfl, rfl⟩
      | ok u =>
        cases u
        have hrc := promise_pre_resolveCalls script dir (baseName script) turns opts f4 f6
        have hfirst := settle_foldl_first _ e rest hrc
        have heL : runExec script turns opts
            ⟨Except.ok dir, Except.ok content, Except.ok (), f4, e :: rest, f6⟩
            = settleOutcome ((e :: rest).foldl procStep
                (f4.foldl streamStep (finallyRm (stdinStage turns (preSpawnSt dir
                  (baseName script) opts (stagedSt script dir))) (some dir) f6))) := rfl
        have heR : runExec script turns opts
            ⟨Except.ok dir, Except.ok content, Except.ok (), f4, [e], f6⟩
            = settleOutcome ([e].foldl procStep
                (f4.foldl streamStep (finallyRm (stdinStage turns (preSpawnSt dir
                  (baseName script) opts (stagedSt script dir))) (some dir) f6))) := rfl
        constructor
        · rw [heL, hfirst.1]
          rfl
        · show (runExec script turns opts
              ⟨Except.ok dir, Except.ok content, Except.ok (), f4, e :: rest, f6⟩).result
            = (runExec script turns opts
              ⟨Except.ok dir, Except.ok content, Except.ok (), f4, [e], f6⟩).result
          rw [heL, heR, hfirst.1, hfirst.2]

/-- Witness for the C9 theorem at an environment firing both an error and a
close event. -/
theorem exec_single_result_w :
    ((runExec "scripts/simple_dialogue.sh" [] [] envSpawnFail).result).isSome = true ∧
    (runExec "scripts/simple_dialogue.sh" [] [] envSpawnFail).result
      = (runExec "scripts/simple_dialogue.sh" [] []
          { envSpawnFail with procEvents := [ProcEv.errorEv "spawn sudo ENOENT"] }).result :=
  exec_single_result "scripts/simple_dialogue.sh" [] [] envSpawnFail
    (ProcEv.errorEv "spawn sudo ENOENT") [ProcEv.closeEv none] rfl

lemma no_write_mono (tr l : List Ev) (h1 : ∀ s, Ev.evStdinWrite s ∉ tr)
    (h2 : ∀ s, Ev.evStdinWrite s ∉ l) : ∀ s, Ev.evStdinWrite s ∉ tr ++ l := by
  intro s hmem
  rcases List.mem_append.mp hmem with h | h
  · exact h1 s h
  · exact h2 s h

lemma streamStep_no_write (st : ExecSt) (ev : StreamEv)
    (h : ∀ s, Ev.evStdinWrite s ∉ st.trace) :
    ∀ s, Ev.evStdinWrite s ∉ (streamStep st ev).trace := by
  cases ev with
  | outData s2 => exact no_write_mono _ _ h (by intro s; simp)
  | errData s2 => exact no_write_mono _ _ h (by intro s; simp)

lemma procStep_no_write (st : ExecSt) (ev : ProcEv)
    (h : ∀ s, Ev.evStdinWrite s ∉ st.trace) :
    ∀ s, Ev.evStdinWrite s ∉ (procStep st ev).trace := by
  cases ev with
  | closeEv c => exact no_write_mono _ _ h (by intro s; simp)
  | errorEv m => exact no_write_mono _ _ h (by intro s; simp)

lemma foldl_streamStep_no_write (l : List StreamEv) : ∀ st : ExecSt,
    (∀ s, Ev.evStdinWrite s ∉ st.trace) →
    ∀ s, Ev.evStdinWrite s ∉ (l.foldl streamStep st).trace := by
  induction l with
  | nil => intro st h; exact h
  | cons e rest ih => intro st h; exact ih _ (streamStep_no_write st e h)

lemma foldl_procStep_no_write (l : List ProcEv) : ∀ st : ExecSt,
    (∀ s, Ev.evStdinWrite s ∉ st.trace) →
    ∀ s, Ev.evStdinWrite s ∉ (l.foldl procStep st).trace := by
  induction l with
  | nil => intro st h; exact h
  | cons e rest ih => intro st h; exact ih _ (procStep_no_write st e h)

lemma finallyRm_no_write (st : ExecSt) (dir : Option String) (rmRes : Except String Unit)
    (h : ∀ s, Ev.evStdinWrite s ∉ st.trace) :
    ∀ s, Ev.evStdinWrite s ∉ (finallyRm st dir rmRes).trace := by
  cases dir with
  | none => exact h
  | some d =>
    cases rmRes with
    | ok u => exact no_write_mono _ _ h (by intro s; simp)
    | error m => exact no_write_mono _ _ h (by intro s; simp)

lemma settleOutcome_no_write (st : ExecSt)
    (h : ∀ s, Ev.evStdinWrite s ∉ st.trace) :
    ∀ s, Ev.evStdinWrite s ∉ (settleOutcome st).finalSt.trace := by
  cases h2 : st.resolveCalls with
  | nil => rw [settleOutcome_nil st h2]; exact h
  | cons r rs =>
    rw [settleOutcome_cons st r rs h2]
    exact no_write_mono _ _ h (by intro s; simp)

lemma settleOutcome_trace_app (st : ExecSt) :
    ∃ l, (settleOutcome st).finalSt.trace = st.trace ++ l := by
  cases h2 : st.resolveCalls with
  | nil => rw [settleOutcome_nil st h2]; exact ⟨[], (List.append_nil _).symm⟩
  | cons r rs => rw [settleOutcome_cons st r rs h2]; exact ⟨_, rfl⟩

lemma stdin_closed_trace (script dir nm : String) (opts : List String) :
    (stdinStage [] (preSpawnSt dir nm opts (stagedSt script dir))).trace
      = [Ev.evMkdtemp dir, Ev.evCopyScript (dir ++ "/" ++ nm), Ev.evSpawn,
         Ev.evStdinEnd] := by
  simp [stdinStage, preSpawnSt, stagedSt, execStart, pushEL, logStep]

lemma procResult_successEq (st : ExecSt) (ev : ProcEv) :
    (procResult st ev).success = decide ((procResult st ev).exitCode = some 0) := by
  cases ev with
  | closeEv code => rfl
  | errorEv m => rfl

lemma foldl_procStep_successEq (l : List ProcEv) : ∀ st : ExecSt,
    (∀ r ∈ st.resolveCalls, r.success = decide (r.exitCode = some 0)) →
    ∀ r ∈ (l.foldl procStep st).resolveCalls,
      r.success = decide (r.exitCode = some 0) := by
  induction l with
  | nil => intro st h; exact h
  | cons e rest ih =>
    intro st h
    apply ih
    intro r hr
    rw [procStep_resolveCalls] at hr
    rcases List.mem_append.mp hr with h2 | h2
    · exact h r h2
    · rw [List.mem_singleton] at h2
      subst h2
      exact procResult_successEq _ _

/-- Claim C6: with an empty dialogue turn sequence the child's input sink is
closed at launch time (the trace up to the stdin-close event holds only the
staging, copy and spawn events — no output chunk has been processed), no
write to the input sink ever occurs, and the settled result's success flag
equals (exitCode == 0). -/
theorem exec_empty_turns_stdin (script : String) (opts : List String) (env : ExecEnv)
    (dir content : String)
    (hm : env.mkdtempRes = Except.ok dir)
    (hr : env.readFileRes = Except.ok content)
    (hw : env.writeFileRes = Except.ok ()) :
    (∃ t2, (runExec script [] opts env).finalSt.trace
        = [Ev.evMkdtemp dir, Ev.evCopyScript (dir ++ "/" ++ baseName script), Ev.evSpawn]
          ++ Ev.evStdinEnd :: t2) ∧
    (∀ s, Ev.evStdinWrite s ∉ (runExec script [] opts env).finalSt.trace) ∧
    (∀ r, (runExec script [] opts env).result = some r →
      r.success = decide (r.exitCode = some 0)) := by
  obtain ⟨f1, f2, f3, f4, f5, f6⟩ := env
  simp only at hm hr hw
  subst hm; subst hr; subst hw
  have he : runExec script [] opts
      ⟨Except.ok dir, Except.ok content, Except.ok (), f4, f5, f6⟩
      = settleOutcome (f5.foldl procStep (f4.foldl streamStep
          (finallyRm (stdinStage [] (preSpawnSt dir (baseName script) opts
            (stagedSt script dir))) (some dir) f6))) := rfl
  rw [he]
  have hX := stdin_closed_trace script dir (baseName script) opts
  refine ⟨?_, ?_, ?_⟩
  · have h0 := finallyRm_trace (stdinStage [] (preSpawnSt dir (baseName script) opts
      (stagedSt script dir))) dir f6
    obtain ⟨l1, h1⟩ := foldl_streamStep_trace_app f4 (finallyRm (stdinStage []
      (preSpawnSt dir (baseName script) opts (stagedSt script dir))) (some dir) f6)
    obtain ⟨l2, h2⟩ := foldl_procStep_trace_app f5 (f4.foldl streamStep (finallyRm
      (stdinStage [] (preSpawnSt dir (baseName script) opts (stagedSt script dir)))
      (some dir) f6))
    obtain ⟨l3, h3⟩ := settleOutcome_trace_app (f5.foldl procStep (f4.foldl streamStep
      (finallyRm (stdinStage [] (preSpawnSt dir (baseName script) opts
        (stagedSt script dir))) (some dir) f6)))
    refine ⟨[Ev.evRmAttempt dir] ++ l1 ++ l2 ++ l3, ?_⟩
    rw [h3, h2, h1, h0, hX]
    simp
  · apply settleOutcome_no_write
    apply foldl_procStep_no_write
    apply foldl_streamStep_no_write
    apply finallyRm_no_write
    rw [hX]
    intro s
    simp
  · intro r hres
    have hrc := promise_pre_resolveCalls script dir (baseName script) [] opts f4 f6
    have hall := foldl_procStep_successEq f5 (f4.foldl streamStep (finallyRm
      (stdinStage [] (preSpawnSt dir (baseName script) opts (stagedSt script dir)))
      (some dir) f6)) (by rw [hrc]; intro r2 h2; simp at h2)
    cases h2 : (f5.foldl procStep (f4.foldl streamStep (finallyRm (stdinStage []
        (preSpawnSt dir (baseName script) opts (stagedSt script dir)))
        (some dir) f6))).resolveCalls with
    | nil =>
      rw [settleOutcome_nil _ h2] at hres
      simp at hres
    | cons r0 rs =>
      rw [settleOutcome_cons _ _ _ h2] at hres
      simp only at hres
      have : r0 = r := by
        have := hres
        injection this
      subst this
      exact hall r0 (by rw [h2]; exact List.mem_cons_self _ _)

/-- Witness for the C6 theorem at a concrete environment. -/
theorem exec_empty_turns_stdin_w :
    (∃ t2, (runExec "scripts/simple_dialogue.sh" [] [] envOk).finalSt.trace
        = [Ev.evMkdtemp "/tmp/nixos_ai_test_X",
           Ev.evCopyScript ("/tmp/nixos_ai_test_X" ++ "/" ++ baseName "scripts/simple_dialogue.sh"),
           Ev.evSpawn] ++ Ev.evStdinEnd :: t2) ∧
    (∀ s, Ev.evStdinWrite s ∉ (runExec "scripts/simple_dialogue.sh" [] [] envOk).finalSt.trace) ∧
    (∀ r, (runExec "scripts/simple_dialogue.sh" [] [] envOk).result = some r →
      r.success = decide (r.exitCode = some 0)) :=
  exec_empty_turns_stdin "scripts/simple_dialogue.sh" [] envOk
    "/tmp/nixos_ai_test_X" "#!/bin/bash" rfl rfl rfl

/-- Claim C3, evaluated at the failing input: with an empty turn list, a
successful staging and a child that closes with code 0, the observable trace
of `executeInteractiveScriptInContainer` initiates the staging-root removal
(`evRmAttempt`, position 4) strictly before the exit signal is observed
(`evClose`, position 5): the source returns the inner Promise from `try`
without awaiting it, so the `finally` cleanup runs while the child is still
running. -/
theorem exec_rm_before_exit_observed :
    (runExec "scripts/simple_dialogue.sh" [] [] envOk).finalSt.trace =
      [Ev.evMkdtemp "/tmp/nixos_ai_test_X",
       Ev.evCopyScript "/tmp/nixos_ai_test_X/simple_dialogue.sh",
       Ev.evSpawn, Ev.evStdinEnd, Ev.evRmAttempt "/tmp/nixos_ai_test_X",
       Ev.evClose (some 0), Ev.evSettled] := by
  decide

lemma AgreeSt_logStep (s u : ExecSt) (lvl : LogLevel) (msg : String)
    (h : AgreeSt s u) : AgreeSt (logStep s lvl msg) (logStep u lvl msg) := by
  obtain ⟨h1, h2, h3, h4, h5, h6, h7⟩ := h
  exact ⟨h1, h2, h3, h4, h5, h6, by simp [logStep, h7]⟩

lemma AgreeSt_pushEL (s u : ExecSt) (line : String)
    (h : AgreeSt s u) : AgreeSt (pushEL s line) (pushEL u line) := by
  obtain ⟨h1, h2, h3, h4, h5, h6, h7⟩ := h
  exact ⟨h1, by simp [pushEL, h2], h3, h4, h5, h6, h7⟩

lemma AgreeSt_streamStep (s u : ExecSt) (ev : StreamEv)
    (h : AgreeSt s u) : AgreeSt (streamStep s ev) (streamStep u ev) := by
  obtain ⟨h1, h2, h3, h4, h5, h6, h7⟩ := h
  cases ev with
  | outData s2 =>
    exact AgreeSt_pushEL _ _ _ ⟨by rw [h1], h2, by rw [h3], h4, h5, h6, h7⟩
  | errData s2 =>
    exact AgreeSt_pushEL _ _ _ (AgreeSt_logStep _ _ _ _
      ⟨by rw [h1], h2, h3, by rw [h4], h5, h6, h7⟩)

lemma AgreeSt_procState (s u : ExecSt) (ev : ProcEv)
    (h : AgreeSt s u) : AgreeSt (procState s ev) (procState u ev) := by
  obtain ⟨h1, h2, h3, h4, h5, h6, h7⟩ := h
  cases ev with
  | closeEv code =>
    exact AgreeSt_pushEL _ _ _ (AgreeSt_logStep _ _ _ _
      ⟨by rw [h1], h2, h3, h4, rfl, h6, h7⟩)
  | errorEv m =>
    exact AgreeSt_pushEL _ _ _ (AgreeSt_logStep _ _ _ _
      ⟨by rw [h1], h2, h3, h4, h5, h6, h7⟩)

lemma AgreeSt_procResult (s u : ExecSt) (ev : ProcEv)
    (h : AgreeSt s u) : procResult s ev = procResult u ev := by
  obtain ⟨h1, h2, h3, h4, h5, h6, h7⟩ := h
  cases ev with
  | closeEv code => simp [procResult, h2, h3, h4]
  | errorEv m => simp [procResult, h2, h3, h4]

lemma AgreeSt_procStep (s u : ExecSt) (ev : ProcEv)
    (h : AgreeSt s u) : AgreeSt (procStep s ev) (procStep u ev) := by
  have hst := AgreeSt_procState s u ev h
  have hres := AgreeSt_procResult (procState s ev) (procState u ev) ev hst
  obtain ⟨g1, g2, g3, g4, g5, g6, g7⟩ := hst
  refine ⟨g1, g2, g3, g4, g5, ?_, g7⟩
  rw [procStep_resolveCalls, procStep_resolveCalls, hres, h.2.2.2.2.2.1]

lemma AgreeSt_foldl_stream (l : List StreamEv) : ∀ s u : ExecSt,
    AgreeSt s u → AgreeSt (l.foldl streamStep s) (l.foldl streamStep u) := by
  induction l with
  | nil => intro s u h; exact h
  | cons e rest ih => intro s u h; exact ih _ _ (AgreeSt_streamStep s u e h)

lemma AgreeSt_foldl_proc (l : List ProcEv) : ∀ s u : ExecSt,
    AgreeSt s u → AgreeSt (l.foldl procStep s) (l.foldl procStep u) := by
  induction l with
  | nil => intro s u h; exact h
  | cons e rest ih => intro s u h; exact ih _ _ (AgreeSt_procStep s u e h)

lemma AgreeSt_settle_result (s u : ExecSt) (h : AgreeSt s u) :
    (settleOutcome s).result = (settleOutcome u).result := by
  obtain ⟨h1, h2, h3, h4, h5, h6, h7⟩ := h
  cases h2s : s.resolveCalls with
  | nil =>
    have h2u : u.resolveCalls = [] := by rw [← h6, h2s]
    rw [settleOutcome_nil s h2s, settleOutcome_nil u h2u]
  | cons r rs =>
    have h2u : u.resolveCalls = r :: rs := by rw [← h6, h2s]
    rw [settleOutcome_cons s r rs h2s, settleOutcome_cons u r rs h2u]

lemma AgreeSt_finallyRm (st : ExecSt) (d m : String) :
    AgreeSt (finallyRm st (some d) (Except.error m))
      (finallyRm st (some d) (Except.ok ())) := by
  refine ⟨rfl, rfl, rfl, rfl, rfl, rfl, ?_⟩
  simp [finallyRm, logStep]

lemma settleOutcome_aiLog (st : ExecSt) :
    (settleOutcome st).finalSt.aiLog = st.aiLog := by
  cases h2 : st.resolveCalls with
  | nil => rw [settleOutcome_nil st h2]
  | cons r rs => rw [settleOutcome_cons st r rs h2]

lemma aiLog_mem_foldl_stream (l : List StreamEv) (st : ExecSt) (e : LogEntry)
    (h : e ∈ st.aiLog) : e ∈ (l.foldl streamStep st).aiLog := by
  obtain ⟨t, ht⟩ := foldl_streamStep_aiLog_app l st
  rw [ht]
  exact List.mem_append_left _ h

lemma aiLog_mem_foldl_proc (l : List ProcEv) (st : ExecSt) (e : LogEntry)
    (h : e ∈ st.aiLog) : e ∈ (l.foldl procStep st).aiLog := by
  obtain ⟨t, ht⟩ := foldl_procStep_aiLog_app l st
  rw [ht]
  exact List.mem_append_left _ h

lemma finallyRm_err_mem (st : ExecSt) (d m : String) :
    ∃ e, e ∈ (finallyRm st (some d) (Except.error m)).aiLog ∧
      e.level = LogLevel.ERROR ∧
      e.message = "Failed to clean up temporary directory " ++ d ++ ": " ++ m := by
  refine ⟨{ level := LogLevel.ERROR,
            message := "Failed to clean up temporary directory " ++ d ++ ": " ++ m,
            timestamp := st.aiLog.length }, ?_, rfl, rfl⟩
  rw [finallyRm_err_aiLog]
  exact List.mem_append_right _ (List.mem_singleton.mpr rfl)

lemma catchReturn_rmErr_mem (st : ExecSt) (d m m2 : String) :
    ∃ e, e ∈ (catchReturn st (some d) (Except.error m) m2).finalSt.aiLog ∧
      e.level = LogLevel.ERROR ∧
      e.message = "Failed to clean up temporary directory " ++ d ++ ": " ++ m := by
  obtain ⟨e, he, hl, hmsg⟩ := finallyRm_err_mem
    (pushEL (logStep st LogLevel.ERROR
        ("Error in executeInteractiveScriptInContainer: " ++ m2))
      ("Error in executeInteractiveScriptInContainer: " ++ m2)) d m
  exact ⟨e, he, hl, hmsg⟩

/-- Claim C8: a failure of the staging-root removal is recorded as a log entry
and never raised; the settled result (success flag included) is identical to
the one of the same execution whose removal succeeds. -/
theorem exec_cleanup_failure_nonfatal (script : String) (turns : List DialogueTurn)
    (opts : List String) (env : ExecEnv) (dir m : String)
    (hm : env.mkdtempRes = Except.ok dir) :
    (runExec script turns opts { env with rmRes := Except.error m }).result
      = (runExec script turns opts { env with rmRes := Except.ok () }).result ∧
    ∃ e, e ∈ (runExec script turns opts { env with rmRes := Except.error m }).finalSt.aiLog ∧
      e.level = LogLevel.ERROR ∧
      e.message = "Failed to clean up temporary directory " ++ dir ++ ": " ++ m := by
  obtain ⟨f1, f2, f3, f4, f5, f6⟩ := env
  simp only at hm
  subst hm
  cases f2 with
  | error m2 => exact ⟨rfl, catchReturn_rmErr_mem (stagedSt script dir) dir m m2⟩
  | ok content =>
    cases f3 with
    | error m2 => exact ⟨rfl, catchReturn_rmErr_mem (stagedSt script dir) dir m m2⟩
    | ok u =>
      cases u
      have hAg := AgreeSt_foldl_proc f5 _ _ (AgreeSt_foldl_stream f4 _ _
        (AgreeSt_finallyRm (stdinStage turns (preSpawnSt dir (baseName script) opts
          (stagedSt script dir))) dir m))
      constructor
      · exact AgreeSt_settle_result _ _ hAg
      · obtain ⟨e, he, hl, hmsg⟩ := finallyRm_err_mem (stdinStage turns (preSpawnSt dir
          (baseName script) opts (stagedSt script dir))) dir m
        refine ⟨e, ?_, hl, hmsg⟩
        show e ∈ (settleOutcome (f5.foldl procStep (f4.foldl streamStep (finallyRm
          (stdinStage turns (preSpawnSt dir (baseName script) opts (stagedSt script dir)))
          (some dir) (Except.error m))))).finalSt.aiLog
        rw [settleOutcome_aiLog]
        exact aiLog_mem_foldl_proc f5 _ e (aiLog_mem_foldl_stream f4 _ e he)

/-- Witness for the C8 theorem at a concrete environment with failing removal. -/
theorem exec_cleanup_failure_nonfatal_w :
    (runExec "scripts/simple_dialogue.sh" [] []
        { envOk with rmRes := Except.error "EACCES" }).result
      = (runExec "scripts/simple_dialogue.sh" [] []
        { envOk with rmRes := Except.ok () }).result ∧
    ∃ e, e ∈ (runExec "scripts/simple_dialogue.sh" [] []
        { envOk with rmRes := Except.error "EACCES" }).finalSt.aiLog ∧
      e.level = LogLevel.ERROR ∧
      e.message = "Failed to clean up temporary directory "
        ++ "/tmp/nixos_ai_test_X" ++ ": " ++ "EACCES" :=
  exec_cleanup_failure_nonfatal "scripts/simple_dialogue.sh" [] [] envOk
    "/tmp/nixos_ai_test_X" "EACCES" rfl
